import Mathlib

/-!
Verification development for the maxzilla-async-gen repository: a generator of
TypeScript type declarations from AsyncAPI v3 specifications.

The spec-ingestion layer (`src/parser/asyncapi-parser.ts`) is embedded from its
source.  The type compiler (`src/generator/typescript-generator.ts`) is not
present in the repository snapshot (only its tests, the CLI caller and review
documents are), so it is modelled from the specification, section 4.2; each
such definition says so in its doc comment.
-/

set_option maxRecDepth 4096

namespace AsyncGen

mutual

/--
Schema tree mirroring `SchemaObject` from `src/types/index.ts`.  All fields
are optional in the source; absent collection fields are represented by the
empty collection.  The recursive positions use the companion types `Props`
(the `properties` mapping, insertion-ordered), `Schemas` (a schema sequence)
and `OptSchema` (an optional schema), so that every traversal is plainly
structural.  The TypeScript union field
`additionalProperties?: boolean | SchemaObject` is split into the two fields
`addlBool` and `addlSchema` (at most one is set).
Field order: type, properties, items, required, enum, description, $ref,
allOf, anyOf, oneOf, format, additionalProperties(bool),
additionalProperties(schema).
-/
inductive Schema : Type where
  | mk : Option String → Props → OptSchema → List String →
      List String → Option String → Option String → Schemas → Schemas →
      Schemas → Option String → Option Bool → OptSchema → Schema

/-- The `properties` mapping of a `SchemaObject`: ordered key/schema pairs. -/
inductive Props : Type where
  | nil : Props
  | cons : String → Schema → Props → Props

/-- An ordered sequence of schemas (`allOf`/`anyOf`/`oneOf` branches). -/
inductive Schemas : Type where
  | nil : Schemas
  | cons : Schema → Schemas → Schemas

/-- An optional schema (`items`, `additionalProperties`). -/
inductive OptSchema : Type where
  | none : OptSchema
  | some : Schema → OptSchema

end

/-- View an `OptSchema` as an `Option`. -/
def OptSchema.toOption : OptSchema → Option Schema
  | .none => Option.none
  | .some s => Option.some s

/-- Head of a schema sequence, if any. -/
def Schemas.headOpt : Schemas → Option Schema
  | .nil => Option.none
  | .cons s _ => Option.some s

/-- Tail of a schema sequence. -/
def Schemas.tailS : Schemas → Schemas
  | .nil => .nil
  | .cons _ rest => rest

/-- True when a `properties` mapping is empty. -/
def Props.isNilB : Props → Bool
  | .nil => true
  | .cons _ _ _ => false

/-- Build a `properties` mapping from a list (for concrete documents). -/
def propsOf : List (String × Schema) → Props
  | [] => .nil
  | (k, s) :: rest => .cons k s (propsOf rest)

/-- Build a schema sequence from a list (for concrete documents). -/
def schemasOf : List Schema → Schemas
  | [] => .nil
  | s :: rest => .cons s (schemasOf rest)

mutual

/-- Node count of a schema tree (used only to size the recursion budget of
the shallow embedding). -/
def Schema.size : Schema → Nat
  | .mk _ p i _ _ _ _ aof anf oof _ _ ads =>
    1 + Props.size p + OptSchema.size i + Schemas.size aof + Schemas.size anf
      + Schemas.size oof + OptSchema.size ads

/-- Node count of a `properties` mapping. -/
def Props.size : Props → Nat
  | .nil => 0
  | .cons _ s rest => 1 + Schema.size s + Props.size rest

/-- Node count of a schema sequence. -/
def Schemas.size : Schemas → Nat
  | .nil => 0
  | .cons s rest => 1 + Schema.size s + Schemas.size rest

/-- Node count of an optional schema. -/
def OptSchema.size : OptSchema → Nat
  | .none => 0
  | .some s => 1 + Schema.size s

end

/-- The `type` field of a `SchemaObject`. -/
def Schema.type : Schema → Option String
  | .mk t _ _ _ _ _ _ _ _ _ _ _ _ => t

/-- The `properties` field of a `SchemaObject` (insertion-ordered). -/
def Schema.properties : Schema → Props
  | .mk _ p _ _ _ _ _ _ _ _ _ _ _ => p

/-- The `items` field of a `SchemaObject`. -/
def Schema.items : Schema → OptSchema
  | .mk _ _ i _ _ _ _ _ _ _ _ _ _ => i

/-- The `required` field of a `SchemaObject`. -/
def Schema.required : Schema → List String
  | .mk _ _ _ r _ _ _ _ _ _ _ _ _ => r

/-- The `enum` field of a `SchemaObject`. -/
def Schema.enumVals : Schema → List String
  | .mk _ _ _ _ e _ _ _ _ _ _ _ _ => e

/-- The `description` field of a `SchemaObject`. -/
def Schema.description : Schema → Option String
  | .mk _ _ _ _ _ d _ _ _ _ _ _ _ => d

/-- The `$ref` field of a `SchemaObject`. -/
def Schema.ref : Schema → Option String
  | .mk _ _ _ _ _ _ r _ _ _ _ _ _ => r

/-- The `allOf` field of a `SchemaObject`. -/
def Schema.allOf : Schema → Schemas
  | .mk _ _ _ _ _ _ _ a _ _ _ _ _ => a

/-- The `anyOf` field of a `SchemaObject`. -/
def Schema.anyOf : Schema → Schemas
  | .mk _ _ _ _ _ _ _ _ a _ _ _ _ => a

/-- The `oneOf` field of a `SchemaObject`. -/
def Schema.oneOf : Schema → Schemas
  | .mk _ _ _ _ _ _ _ _ _ o _ _ _ => o

/-- The `format` field of a `SchemaObject`. -/
def Schema.format : Schema → Option String
  | .mk _ _ _ _ _ _ _ _ _ _ f _ _ => f

/-- The boolean alternative of `additionalProperties`. -/
def Schema.addlBool : Schema → Option Bool
  | .mk _ _ _ _ _ _ _ _ _ _ _ b _ => b

/-- The schema alternative of `additionalProperties`. -/
def Schema.addlSchema : Schema → OptSchema
  | .mk _ _ _ _ _ _ _ _ _ _ _ _ s => s

/-- A `SchemaObject` with no field set (the TS literal `\x7b\x7d`). -/
def Schema.empty : Schema :=
  .mk none .nil .none [] [] none none .nil .nil .nil none none .none

/-- A `SchemaObject` whose only populated field is `$ref`: the shape the
parser's early return produces, and the shape of a raw document node that is
an object containing only a `$ref` key. -/
def Schema.onlyRef (p : String) : Schema :=
  .mk none .nil .none [] [] none (some p) .nil .nil .nil none none .none

/-- Lookup in a `properties` mapping by exact string key (mirrors a TS
object index `map[key]`, first binding wins). -/
def lookupProps : Props → String → Option Schema
  | .nil, _ => none
  | .cons k v rest, key => if k = key then some v else lookupProps rest key

/-- Association-list lookup by exact string key, for the Document's
component-schema mapping. -/
def lookupStr : List (String × Schema) → String → Option Schema
  | [], _ => none
  | (k, v) :: rest, key => if k = key then some v else lookupStr rest key

/-- `rawSchemaPath?.properties?.[key]` from `convertSchemaToObject`. -/
def rawField (raw : Option Schema) (key : String) : Option Schema :=
  match raw with
  | none => none
  | some r => lookupProps r.properties key

/-- `rawSchemaPath && rawSchemaPath.$ref` from `convertSchemaToObject`. -/
def rawRefOf (raw : Option Schema) : Option String :=
  match raw with
  | none => none
  | some r => r.ref

mutual

/--
`AsyncAPIParser.convertSchemaToObject(schema, rawSchemaPath?)` from
`src/parser/asyncapi-parser.ts`.  The resolved schema view is already
normalized to plain data (the source's callable-or-plain `getSchemaProperty`
accessor is identity field access on this view).  If the raw (unresolved)
counterpart at this location has a `$ref`, the function returns early with a
node carrying only that `$ref`; otherwise it copies the scalar fields and
recurses into properties, items, allOf/anyOf/oneOf and additionalProperties,
threading the structurally matching raw subtree into each recursive call.
-/
def convertSchemaToObject (s : Schema) (raw : Option Schema) : Schema :=
  (rawRefOf raw).elim (convertCore s raw) Schema.onlyRef

/-- The non-reference path of `convertSchemaToObject`: copy the scalar fields
and recurse into every structural field with the matching raw subtree. -/
def convertCore (s : Schema) (raw : Option Schema) : Schema :=
  match s with
  | .mk t props items req enums desc rf aof anf oof fmt ab ads =>
    Schema.mk t
      (convertProps props raw)
      (convertOptSchema items (Option.bind raw (fun r => r.items.toOption)))
      req enums desc rf
      (convertBranches aof ((raw.map Schema.allOf).getD .nil))
      (convertBranches anf ((raw.map Schema.anyOf).getD .nil))
      (convertBranches oof ((raw.map Schema.oneOf).getD .nil))
      fmt ab
      (convertOptSchema ads (Option.bind raw (fun r => r.addlSchema.toOption)))

/-- The `properties` recursion of `convertSchemaToObject`: each property is
converted against `rawSchemaPath?.properties?.[key]`. -/
def convertProps (props : Props) (raw : Option Schema) : Props :=
  match props with
  | .nil => .nil
  | .cons k p rest => .cons k (convertSchemaToObject p (rawField raw k)) (convertProps rest raw)

/-- The `items` / `additionalProperties` recursion of `convertSchemaToObject`. -/
def convertOptSchema (s : OptSchema) (raw : Option Schema) : OptSchema :=
  match s with
  | .none => .none
  | .some x => .some (convertSchemaToObject x raw)

/-- The `allOf`/`anyOf`/`oneOf` recursion of `convertSchemaToObject`: branch
`i` is converted against raw branch `i`. -/
def convertBranches (branches : Schemas) (raws : Schemas) : Schemas :=
  match branches with
  | .nil => .nil
  | .cons b rest => .cons (convertSchemaToObject b raws.headOpt) (convertBranches rest raws.tailS)

end

/-- An abstract view of the file system at one path, as probed by
`AsyncAPIParser.readFile` (`fs.stat`, `stats.isFile()`, `stats.size`,
`fs.readFile`). -/
structure FileInput where
  present : Bool
  isFile : Bool
  size : Nat
  readable : Bool
  content : String

/-- The distinct failures `AsyncAPIParser.parse` can signal, one constructor
per distinct error message of the source. -/
inductive ParseFailure : Type where
  | fileNotFound
  | pathNotFile
  | fileTooLarge
  | permissionDenied
  | validationFailed
  | noDocument
deriving DecidableEq

/-- `private readonly MAX_FILE_SIZE = 10 * 1024 * 1024` from
`src/parser/asyncapi-parser.ts`. -/
def MAX_FILE_SIZE : Nat := 10 * 1024 * 1024

/-- `AsyncAPIParser.readFile`: stat the path (an absent file raises `ENOENT`,
mapped to "File not found"), reject a non-regular file ("Path is not a file"),
reject a file over the size ceiling ("File too large"), then read it (an
`EACCES` is mapped to "Permission denied"). -/
def readFileModel (f : FileInput) : Except ParseFailure String :=
  if !f.present then .error .fileNotFound
  else if !f.isFile then .error .pathNotFile
  else if MAX_FILE_SIZE < f.size then .error .fileTooLarge
  else if !f.readable then .error .permissionDenied
  else .ok f.content

/-- One diagnostic of the external AsyncAPI validator; in the source,
severity `0` is an error and severity `1` a warning. -/
structure Diagnostic where
  severity : Nat
  message : String
deriving DecidableEq

/-- `AsyncAPIParser.parse`: read the file first (any access failure
propagates before parsing is attempted), then let the external validator
produce `diagnostics` and possibly a document.  Error-severity diagnostics
are filtered out and, when any is present, aggregated into the single failure
"Failed to parse AsyncAPI specification"; warning-severity diagnostics are
only logged and never fail the parse.  A missing document is a distinct
fatal failure.  The validator outcome is passed in as data since the
validator itself is an external collaborator. -/
def parseModel (f : FileInput) (diagnostics : List Diagnostic)
    (hasDocument : Bool) : Except ParseFailure Unit :=
  match readFileModel f with
  | .error e => .error e
  | .ok _ =>
    let errors := diagnostics.filter (fun d => d.severity == 0)
    if 0 < errors.length then .error .validationFailed
    else if !hasDocument then .error .noDocument
    else .ok ()

/-- C7: `parse` signals a distinct, specific failure for each input-access
problem (file absent, size over the ceiling, not a regular file, permission
denied) regardless of any validator outcome, i.e. before parsing is
attempted; when access succeeds, any error-severity diagnostic aborts the
whole operation with the single aggregated validation failure, while
warning-severity diagnostics alone never cause failure. -/
theorem parse_error_taxonomy (f : FileInput) (ds : List Diagnostic) (hd : Bool) :
    (f.present = false → parseModel f ds hd = .error .fileNotFound)
    ∧ (f.present = true → f.isFile = false →
        parseModel f ds hd = .error .pathNotFile)
    ∧ (f.present = true → f.isFile = true → MAX_FILE_SIZE < f.size →
        parseModel f ds hd = .error .fileTooLarge)
    ∧ (f.present = true → f.isFile = true → f.size ≤ MAX_FILE_SIZE →
        f.readable = false → parseModel f ds hd = .error .permissionDenied)
    ∧ (f.present = true → f.isFile = true → f.size ≤ MAX_FILE_SIZE →
        f.readable = true → (∃ d ∈ ds, d.severity = 0) →
        parseModel f ds hd = .error .validationFailed)
    ∧ (f.present = true → f.isFile = true → f.size ≤ MAX_FILE_SIZE →
        f.readable = true → (∀ d ∈ ds, d.severity ≠ 0) → hd = true →
        parseModel f ds hd = .ok ()) := by
  refine ⟨?_, ?_, ?_, ?_, ?_, ?_⟩
  · intro h1
    simp [parseModel, readFileModel, h1]
  · intro h1 h2
    simp [parseModel, readFileModel, h1, h2]
  · intro h1 h2 h3
    simp [parseModel, readFileModel, h1, h2, h3]
  · intro h1 h2 h3 h4
    simp [parseModel, readFileModel, h1, h2, h4, Nat.not_lt.mpr h3]
  · intro h1 h2 h3 h4 h5
    obtain ⟨d, hdm, hds⟩ := h5
    have hne : ds.filter (fun d => d.severity == 0) ≠ [] := by
      intro hnil
      have : d ∈ ds.filter (fun d => d.severity == 0) := by
        simp [List.mem_filter, hdm, hds]
      simp [hnil] at this
    simp [parseModel, readFileModel, h1, h2, h4, Nat.not_lt.mpr h3,
      List.length_pos.mpr hne]
  · intro h1 h2 h3 h4 h5 h6
    have hf : ds.filter (fun d => d.severity == 0) = [] := by
      rw [List.filter_eq_nil_iff]
      intro d hdm
      simpa using h5 d hdm
    simp [parseModel, readFileModel, h1, h2, h4, h6, Nat.not_lt.mpr h3, hf]

/-- Witness for C7: the four access failures, the aggregated validation
failure, and a warnings-only success, each at a concrete input. -/
theorem parse_error_taxonomy_witness :
    parseModel ⟨false, false, 0, false, ""⟩ [] true = .error .fileNotFound
    ∧ parseModel ⟨true, false, 0, true, ""⟩ [] true = .error .pathNotFile
    ∧ parseModel ⟨true, true, 20000000, true, ""⟩ [] true = .error .fileTooLarge
    ∧ parseModel ⟨true, true, 3, false, ""⟩ [] true = .error .permissionDenied
    ∧ parseModel ⟨true, true, 3, true, "x"⟩ [⟨0, "bad"⟩] true = .error .validationFailed
    ∧ parseModel ⟨true, true, 3, true, "x"⟩ [⟨1, "warn"⟩] true = .ok () := by
  refine ⟨(parse_error_taxonomy _ _ _).1 rfl,
    (parse_error_taxonomy _ _ _).2.1 rfl rfl,
    (parse_error_taxonomy _ _ _).2.2.1 rfl rfl (by decide),
    (parse_error_taxonomy _ _ _).2.2.2.1 rfl rfl (by decide) rfl,
    (parse_error_taxonomy _ _ _).2.2.2.2.1 rfl rfl (by decide) rfl
      ⟨⟨0, "bad"⟩, by decide, rfl⟩,
    (parse_error_taxonomy _ _ _).2.2.2.2.2 rfl rfl (by decide) rfl
      (by intro d hdm; simp at hdm; simp [hdm]) rfl⟩

/-!  Operation attribution (`AsyncAPIParser.extractOperationsFromChannel`). -/

/-- A message as carried by the parsed model (`ParsedMessage` from
`src/types/index.ts`). -/
structure ParsedMessage where
  name : String
  description : Option String
  payload : Schema
  headers : Option Schema

/-- `ParsedOperation` from `src/types/index.ts`. -/
structure ParsedOperation where
  action : String
  channel : String
  messages : List ParsedMessage
  description : Option String

/-- An operation of the validated document model as consumed by
`extractOperationsFromChannel`: `operation.action()`, the ids of
`operation.channels().all()` in order, the operation's messages and
description. -/
structure OperationModel where
  action : String
  channelIds : List String
  messages : List ParsedMessage
  description : Option String

/-- The record `extractOperationsFromChannel` pushes for a matching
operation: `{ action, channel: channelId, messages, description }`. -/
def toParsedOperation (op : OperationModel) (channelId : String) : ParsedOperation :=
  ⟨op.action, channelId, op.messages, op.description⟩

/-- `AsyncAPIParser.extractOperationsFromChannel(document, channelId)`:
iterate the document's operations; for each, take only the FIRST channel of
`operation.channels().all()` and, when its id equals `channelId`, push the
operation record into the send or receive list according to its action. -/
def extractOperationsFromChannel (ops : List OperationModel) (channelId : String) :
    List ParsedOperation × List ParsedOperation :=
  match ops with
  | [] => ([], [])
  | op :: rest =>
    let acc := extractOperationsFromChannel rest channelId
    match op.channelIds.head? with
    | some cid =>
      if cid = channelId then
        if op.action = "send" then (toParsedOperation op channelId :: acc.1, acc.2)
        else if op.action = "receive" then (acc.1, toParsedOperation op channelId :: acc.2)
        else acc
      else acc
    | none => acc

/-- C10: an operation is attributed to a channel's send (respectively
receive) list exactly when the FIRST channel of its channel list has that
channel's id and its action is send (receive); an operation naming the
channel in any later position is silently omitted from both lists, hence
from that channel's direction union types. -/
theorem extractOperations_first_channel_only (ops : List OperationModel)
    (channelId : String) :
    (extractOperationsFromChannel ops channelId).1
      = (ops.filter (fun op =>
          decide (op.channelIds.head? = some channelId ∧ op.action = "send"))).map
          (fun op => toParsedOperation op channelId)
    ∧ (extractOperationsFromChannel ops channelId).2
      = (ops.filter (fun op =>
          decide (op.channelIds.head? = some channelId ∧ op.action = "receive"))).map
          (fun op => toParsedOperation op channelId) := by
  induction ops with
  | nil => exact ⟨rfl, rfl⟩
  | cons op rest ih =>
    obtain ⟨ih1, ih2⟩ := ih
    constructor
    · simp only [extractOperationsFromChannel, List.filter_cons]
      rcases hh : op.channelIds.head? with _ | cid
      · simp [hh, ih1]
      · rcases heq : decide (cid = channelId) with _ | _
        · have hne : cid ≠ channelId := of_decide_eq_false heq
          simp [hh, hne, ih1]
        · have hcid : cid = channelId := of_decide_eq_true heq
          subst hcid
          by_cases hs : op.action = "send"
          · simp [hh, hs, ih1]
          · by_cases hr : op.action = "receive"
            · simp [hh, hs, hr, ih1]
            · simp [hh, hs, hr, ih1]
    · simp only [extractOperationsFromChannel, List.filter_cons]
      rcases hh : op.channelIds.head? with _ | cid
      · simp [hh, ih2]
      · rcases heq : decide (cid = channelId) with _ | _
        · have hne : cid ≠ channelId := of_decide_eq_false heq
          simp [hh, hne, ih2]
        · have hcid : cid = channelId := of_decide_eq_true heq
          subst hcid
          by_cases hs : op.action = "send"
          · simp [hh, hs, ih2]
          · by_cases hr : op.action = "receive"
            · simp [hh, hs, hr, ih2]
            · simp [hh, hs, hr, ih2]

/-!
The Type Compiler (`src/generator/typescript-generator.ts`) is not in the
repository snapshot; everything from here on is modelled from spec.md
section 4.2 (declaration emission algorithm, recursion guard, deduplication,
identifier sanitation, channel unions), with the shapes of the emitted text
taken from the repository's generator tests.
-/

/-- Substring utilities: a plain character-list matcher, used to state
containment and occurrence-count facts about generated text. -/
def charsStart : List Char → List Char → Bool
  | [], _ => true
  | _ :: _, [] => false
  | p :: ps, c :: cs => p = c && charsStart ps cs

/-- Number of positions of `s` at which `pat` occurs. -/
def occurrenceCount (pat : List Char) : List Char → Nat
  | [] => 0
  | c :: rest => (if charsStart pat (c :: rest) then 1 else 0) + occurrenceCount pat rest

/-- `containsSub s pat` is true when `pat` occurs somewhere in `s`. -/
def containsSub (s pat : String) : Bool :=
  decide (0 < occurrenceCount pat.toList s.toList)

/-- Occurrence count lifted to strings. -/
def countSub (s pat : String) : Nat :=
  occurrenceCount pat.toList s.toList

/-- Split a string into its lines. -/
def splitLinesAux (acc : List Char) : List Char → List String
  | [] => [String.mk acc.reverse]
  | c :: rest =>
    if c = '\n' then String.mk acc.reverse :: splitLinesAux [] rest
    else splitLinesAux (c :: acc) rest

/-- The lines of a generated artifact. -/
def splitLines (s : String) : List String := splitLinesAux [] s.toList

/-- The single-quote character, written by code point to keep generated
TypeScript literals out of the Lean source text. -/
def quoteChar : Char := Char.ofNat 39

/-- The single-quote as a string. -/
def quoteStr : String := String.singleton quoteChar

/-- An opening brace as generated text. -/
def obrace : String := "\x7b"

/-- A closing brace as generated text. -/
def cbrace : String := "\x7d"

/-- Character class used by the sanitizer: ASCII letters and digits. -/
def isAlnum (c : Char) : Bool := c.isAlpha || c.isDigit

/-- Modelled from the spec: identifier sanitation "strip/convert
non-alphanumeric separators into word boundaries, uppercase each
boundary-adjacent letter".  The boundary flag is true at the start of the
string and after every separator. -/
def pascalChars (boundary : Bool) : List Char → List Char
  | [] => []
  | c :: cs =>
    if isAlnum c then (if boundary then c.toUpper else c) :: pascalChars false cs
    else pascalChars true cs

/-- Modelled from the spec: PascalCase conversion of an arbitrary key
(`toPascalCase` of the missing generator; behavior fixed by the generator
test table user-name/user_name/user.name/UserName/userName/user123 →
UserName/UserName/UserName/UserName/UserName/User123). -/
def toPascalCase (s : String) : String := String.mk (pascalChars true s.toList)

/-- Modelled from the spec: reserved declaration keywords of the output
language that a sanitized name must not collide with. -/
def reservedWords : List String :=
  ["interface", "type", "class", "const", "let", "var"]

/-- True when the string starts with a decimal digit. -/
def startsWithDigit (s : String) : Bool :=
  match s.toList with
  | [] => false
  | c :: _ => c.isDigit

/-- Lowercase a string character by character (the `.toLowerCase()` of the
reserved-word comparison). -/
def lowerStr (s : String) : String := String.mk (s.toList.map Char.toLower)

/-- Modelled from the spec: "prefix with an underscore if the result starts
with a digit, and suffix with an underscore if the result collides with a
reserved keyword of the output language" (`sanitizeIdentifier` of the missing
generator; the reserved-word check is case-insensitive). -/
def sanitizeIdentifier (s : String) : String :=
  let s1 := if startsWithDigit s then "_" ++ s else s
  if reservedWords.contains (lowerStr s1) then s1 ++ "_" else s1

/-- Modelled from the spec: the declared name exposed for a schema key —
PascalCase conversion followed by identifier sanitation.  The original key is
never replaced by this name for lookup purposes. -/
def safeName (key : String) : String := sanitizeIdentifier (toPascalCase key)

/-- C9: identifier sanitation at the name-exposure boundary maps `user-name`
to `UserName` (separators become word boundaries with the following letter
uppercased), `123test` to `_123test` (digit-leading result prefixed with an
underscore), and the reserved keyword `interface` to `Interface_`
(reserved-word collision suffixed with an underscore). -/
theorem sanitize_identifier_examples :
    safeName "user-name" = "UserName"
    ∧ safeName "123test" = "_123test"
    ∧ safeName "interface" = "Interface_" := by
  refine ⟨?_, ?_, ?_⟩ <;> decide

/-- Generator configuration (`GeneratorOptions` from `src/types/index.ts`):
`enumUnion` selects union-of-literals over named enumerations, `useUnknown`
selects the strict fallback type, `exportEverything` marks declarations for
external visibility. -/
structure GenOptions where
  enumUnion : Bool
  useUnknown : Bool
  exportEverything : Bool
deriving DecidableEq

/-- The CLI's configuration: union enums, `unknown` fallback, export all. -/
def cliOptions : GenOptions := ⟨true, true, true⟩

/-- Modelled from the spec: the configured fallback ("unknown" or "any"
depending on configuration). -/
def fallbackType (cfg : GenOptions) : String :=
  if cfg.useUnknown then "unknown" else "any"

/-- The visibility marker prepended to declarations. -/
def exportKw (cfg : GenOptions) : String :=
  if cfg.exportEverything then "export " else ""

/-- Modelled from the spec: compiler-owned bookkeeping for one `generate`
invocation — the set of already-emitted declaration names, the accumulated
top-level declaration blocks in emission order, the collected
reference-resolution warnings, and a flag recording whether the recursion
bound of the shallow embedding was ever hit. -/
structure GenSt where
  emitted : List String
  decls : List String
  warnings : List String
  exhausted : Bool
deriving DecidableEq

/-- The empty compiler state each `generate` invocation starts from. -/
def GenSt.empty : GenSt := ⟨[], [], [], false⟩

/-- Modelled from the spec (Deduplication): append a top-level declaration
unless a declaration under this name was already emitted; a name that has
been fully emitted is never re-emitted. -/
def emitDecl (st : GenSt) (name : String) (text : String) : GenSt :=
  if st.emitted.contains name then st
  else { st with emitted := st.emitted ++ [name], decls := st.decls ++ [text] }

/-- Append a reference-resolution warning. -/
def addWarning (st : GenSt) (w : String) : GenSt :=
  { st with warnings := st.warnings ++ [w] }

/-- Escape embedded quote characters in an enum literal value. -/
def escapeQuotes (s : String) : String :=
  String.mk (s.toList.flatMap (fun c => if c = quoteChar then ['\\', c] else [c]))

/-- A single-quoted TypeScript string literal. -/
def quoteLit (s : String) : String := quoteStr ++ escapeQuotes s ++ quoteStr

/-- Modelled from the spec (doc-comment escaping): the comment-terminator
sequence inside description text is escaped so it cannot close the comment,
and embedded newlines are flattened to single spaces. -/
def escapeDocChars : List Char → List Char
  | [] => []
  | '*' :: '/' :: rest => '*' :: '\\' :: '/' :: escapeDocChars rest
  | '\n' :: rest => ' ' :: escapeDocChars rest
  | c :: rest => c :: escapeDocChars rest

/-- Doc-comment escaping lifted to strings. -/
def escapeJsDocComment (s : String) : String := String.mk (escapeDocChars s.toList)

/-- Render a description (when present) as a doc comment block directly above
a declaration. -/
def withDoc (desc : Option String) (decl : String) : String :=
  match desc with
  | some d => "/**\n * " ++ escapeJsDocComment d ++ "\n */\n" ++ decl
  | none => decl

/-- An alias declaration `export type Name = Expr;`. -/
def aliasDecl (cfg : GenOptions) (name expr : String) : String :=
  exportKw cfg ++ "type " ++ name ++ " = " ++ expr ++ ";"

/-- Join strings with a separator. -/
def joinSep (sep : String) : List String → String
  | [] => ""
  | [x] => x
  | x :: y :: rest => x ++ sep ++ joinSep sep (y :: rest)

/-- A structured-record declaration with the given field lines. -/
def interfaceText (cfg : GenOptions) (name : String) (desc : Option String)
    (lines : List String) : String :=
  withDoc desc (exportKw cfg ++ "interface " ++ name ++ " " ++ obrace ++ "\n"
    ++ joinSep "\n" lines ++ "\n" ++ cbrace)

/-- The member name of a named enumeration: the literal upper-snake-cased. -/
def enumMemberName (s : String) : String :=
  String.mk (s.toList.map (fun c => if isAlnum c then c.toUpper else '_'))

/-- A named enumeration declaration whose members pair the upper-snake-cased
literal with the original literal as its value. -/
def enumDecl (cfg : GenOptions) (name : String) (vals : List String) : String :=
  exportKw cfg ++ "enum " ++ name ++ " " ++ obrace ++ "\n"
    ++ joinSep "\n" (vals.map (fun v => "  " ++ enumMemberName v ++ " = " ++ quoteLit v ++ ","))
    ++ "\n" ++ cbrace

/-- True when a property name is a valid bare identifier of the output
language. -/
def isValidIdent (s : String) : Bool :=
  match s.toList with
  | [] => false
  | c :: rest => (c.isAlpha || c = '_' || c = '$')
      && rest.all (fun x => isAlnum x || x = '_' || x = '$')

/-- Modelled from the spec: property names are emitted as-is if valid bare
identifiers, quoted if not. -/
def propKey (s : String) : String := if isValidIdent s then s else quoteLit s

/-- Modelled from the spec: the primitive type mapping string/number/integer/
boolean/null; anything unrecognized resolves to the configured fallback. -/
def primitiveType (cfg : GenOptions) (t : String) : String :=
  if t = "string" then "string"
  else if t = "number" then "number"
  else if t = "integer" then "number"
  else if t = "boolean" then "boolean"
  else if t = "null" then "null"
  else fallbackType cfg

/-- Characters of the final `/`-separated segment of a pointer. -/
def lastSegAux (cur : List Char) : List Char → List Char
  | [] => cur.reverse
  | c :: rest => if c = '/' then lastSegAux [] rest else lastSegAux (c :: cur) rest

/-- Modelled from the spec: resolve a `$ref` pointer to an original schema
key by stripping the pointer prefix (the final `/`-separated segment). -/
def extractRefName (p : String) : String :=
  String.mk (lastSegAux [] p.toList)

/-- True when a schema sequence is empty. -/
def Schemas.isNilB : Schemas → Bool
  | .nil => true
  | .cons _ _ => false

/-- An enum node: `type: string` plus a non-empty `enum`. -/
def Schema.isEnum (s : Schema) : Bool :=
  s.type == some "string" && !s.enumVals.isEmpty

/-- An object-shaped node: has `properties`, or bare `type: object`. -/
def Schema.isObjectShape (s : Schema) : Bool :=
  !s.properties.isNilB || s.type == some "object"

mutual

/--
Modelled from the spec: `renderType(declaredName, node, isTopLevelDeclaration,
recursionGuard)` — the declaration emission algorithm of section 4.2.  The
recursion guard is the set of in-progress declaration names, passed down the
recursion stack; per the spec it is consulted when an attempt is made to
render a body whose name is already in progress, in which case the fallback
type is returned for that occurrence without entering another copy of the
body.  `fuel` bounds the recursion depth of this shallow embedding; when the
model's `generate` picks it, it is never reached (the `exhausted` flag stays
false), the spec's guard discipline being what actually stops cyclic
reference chains.
-/
def schemaToTypeScript (cfg : GenOptions) (schemas : List (String × Schema))
    (fuel : Nat) (name : String) (node : Schema) (isTop : Bool)
    (guard : List String) (st : GenSt) : String × GenSt :=
  match fuel with
  | 0 => (fallbackType cfg, { st with exhausted := true })
  | fuel + 1 =>
    if guard.contains name then (fallbackType cfg, st)
    else renderResolved cfg schemas fuel name node isTop guard st

/--
Modelled from the spec: the kind dispatch of `renderType` once the guard has
been consulted — reference, enum, composition, array, object, then
primitive/untyped, in the order of section 4.2.  A name is added to the guard
only when entering structural rendering of that name's own body (object
properties, composition branches), never at the moment a reference to it is
resolved.
-/
def renderResolved (cfg : GenOptions) (schemas : List (String × Schema))
    (fuel : Nat) (name : String) (node : Schema) (isTop : Bool)
    (guard : List String) (st : GenSt) : String × GenSt :=
  match fuel with
  | 0 => (fallbackType cfg, { st with exhausted := true })
  | fuel + 1 =>
    match node.ref with
    | some p =>
      let res := resolveRef cfg schemas fuel p guard st
      if isTop then (res.1, emitDecl res.2 name (withDoc node.description (aliasDecl cfg name res.1)))
      else (res.1, res.2)
    | none =>
      if node.isEnum then
        let unionExpr := joinSep " | " (node.enumVals.map quoteLit)
        if isTop then
          if cfg.enumUnion then
            (name, emitDecl st name (withDoc node.description (aliasDecl cfg name unionExpr)))
          else
            (name, emitDecl st name (withDoc node.description (enumDecl cfg name node.enumVals)))
        else (unionExpr, st)
      else if !node.allOf.isNilB then
        let res := renderBranchList cfg schemas fuel name 0 node.allOf (name :: guard) st
        let joined := joinSep " & " res.1
        if isTop then (name, emitDecl res.2 name (withDoc node.description (aliasDecl cfg name joined)))
        else ("(" ++ joined ++ ")", res.2)
      else if !node.anyOf.isNilB then
        let res := renderBranchList cfg schemas fuel name 0 node.anyOf (name :: guard) st
        let joined := joinSep " | " res.1
        if isTop then (name, emitDecl res.2 name (withDoc node.description (aliasDecl cfg name joined)))
        else ("(" ++ joined ++ ")", res.2)
      else if !node.oneOf.isNilB then
        let res := renderBranchList cfg schemas fuel name 0 node.oneOf (name :: guard) st
        let joined := joinSep " | " res.1
        if isTop then (name, emitDecl res.2 name (withDoc node.description (aliasDecl cfg name joined)))
        else ("(" ++ joined ++ ")", res.2)
      else
        match node.items with
        | .some it =>
          let res := schemaToTypeScript cfg schemas fuel (name ++ "Item") it false guard st
          let arrExpr := res.1 ++ "[]"
          if isTop then (name, emitDecl res.2 name (withDoc node.description (aliasDecl cfg name arrExpr)))
          else (arrExpr, res.2)
        | .none =>
          if node.isObjectShape then
            let guardB := name :: guard
            let fieldsRes := renderFields cfg schemas fuel name node.required node.properties guardB st
            let addlRes :=
              match node.addlBool, node.addlSchema with
              | some true, _ => (["  [key: string]: " ++ fallbackType cfg ++ ";"], fieldsRes.2)
              | some false, _ => ([], fieldsRes.2)
              | none, .some aps =>
                let r := schemaToTypeScript cfg schemas fuel (name ++ "Additional") aps false guardB fieldsRes.2
                (["  [key: string]: " ++ r.1 ++ ";"], r.2)
              | none, .none => ([], fieldsRes.2)
            (name, emitDecl addlRes.2 name
              (interfaceText cfg name node.description (fieldsRes.1 ++ addlRes.1)))
          else
            match node.type with
            | some t =>
              let expr := primitiveType cfg t
              if isTop then (name, emitDecl st name (withDoc node.description (aliasDecl cfg name expr)))
              else (expr, st)
            | none =>
              let expr := fallbackType cfg
              if isTop then (name, emitDecl st name (withDoc node.description (aliasDecl cfg name expr)))
              else (expr, st)

/--
Modelled from the spec: reference resolution.  The pointer is stripped to the
original schema key and looked up in the Document's schema mapping by that
original key — case- and punctuation-preserving, never via a sanitized or
PascalCase re-derivation.  If unresolved, a warning is recorded and the
configured fallback type is produced for this position.  If resolved and not
yet emitted, the target is rendered under its own sanitized name first
(hoisted to top level, its name guarded while its body is rendered) before
its name is returned as the value for the current position; a target whose
name is already in the recursion guard (a true cycle's back edge) is not
re-entered: the cycle is broken by returning the fallback unknown type for
that occurrence.
-/
def resolveRef (cfg : GenOptions) (schemas : List (String × Schema))
    (fuel : Nat) (p : String) (guard : List String) (st : GenSt) : String × GenSt :=
  match fuel with
  | 0 => (fallbackType cfg, { st with exhausted := true })
  | fuel + 1 =>
    let key := extractRefName p
    match lookupStr schemas key with
    | none => (fallbackType cfg, addWarning st ("Could not resolve $ref: " ++ p))
    | some target =>
      let tName := safeName key
      if st.emitted.contains tName then (tName, st)
      else if guard.contains tName then (fallbackType cfg, st)
      else (tName, (renderResolved cfg schemas fuel tName target true (tName :: guard) st).2)

/--
Modelled from the spec: one field per `properties` entry in insertion order,
optional unless listed in `required`; a property description becomes a doc
comment above the field.  Each field type is the nested rendering of its
schema; an object-shaped property with no `$ref` is rendered as a child
declaration named `parent ++ PascalCase(propertyName)` hoisted to top level
(never an inline anonymous record), any other property under
`PascalCase(propertyName)`.
-/
def renderFields (cfg : GenOptions) (schemas : List (String × Schema))
    (fuel : Nat) (parent : String) (required : List String)
    (props : Props) (guard : List String) (st : GenSt) :
    List String × GenSt :=
  match fuel with
  | 0 => ([], { st with exhausted := true })
  | fuel + 1 =>
    match props with
    | .nil => ([], st)
    | .cons k pschema rest =>
      let childName :=
        if pschema.isObjectShape && pschema.ref == none then parent ++ toPascalCase k
        else toPascalCase k
      let res := schemaToTypeScript cfg schemas fuel childName pschema false guard st
      let opt := if required.contains k then "" else "?"
      let docLine :=
        match pschema.description with
        | some d => ["  /** " ++ escapeJsDocComment d ++ " */"]
        | none => []
      let line := "  " ++ propKey k ++ opt ++ ": " ++ res.1 ++ ";"
      let restRes := renderFields cfg schemas fuel parent required rest guard res.2
      (docLine ++ line :: restRes.1, restRes.2)

/--
Modelled from the spec: composition branches are rendered as nested
(non-top-level) type expressions under synthesized names `base ++ "Part" ++ i`.
-/
def renderBranchList (cfg : GenOptions) (schemas : List (String × Schema))
    (fuel : Nat) (base : String) (i : Nat) (branches : Schemas)
    (guard : List String) (st : GenSt) : List String × GenSt :=
  match fuel with
  | 0 => ([], { st with exhausted := true })
  | fuel + 1 =>
    match branches with
    | .nil => ([], st)
    | .cons b rest =>
      let res := schemaToTypeScript cfg schemas fuel (base ++ "Part" ++ toString i) b false guard st
      let restRes := renderBranchList cfg schemas fuel base (i + 1) rest guard res.2
      (res.1 :: restRes.1, restRes.2)

end

/-- The operation shape carried inside a channel: its message list is what
the channel union types consume. -/
structure ParsedOperation' where
  action : String
  channel : String
  messages : List ParsedMessage
  description : Option String

/-- `ParsedChannel` from `src/types/index.ts`; the `operations` record is
split into its `send` and `receive` lists. -/
structure ParsedChannel where
  name : String
  address : Option String
  description : Option String
  messages : List ParsedMessage
  sendOps : List ParsedOperation'
  receiveOps : List ParsedOperation'

/-- `ParsedAsyncAPI` from `src/types/index.ts`: the Document handed to the
Type Compiler.  The schema mapping keeps its original key strings in
insertion order. -/
structure ParsedAsyncAPI where
  title : String
  version : String
  description : Option String
  channels : List ParsedChannel
  messages : List ParsedMessage
  schemas : List (String × Schema)

/-- Stable de-duplication by name, first occurrence kept. -/
def dedupeAux (seen : List String) : List String → List String
  | [] => []
  | x :: rest =>
    if seen.contains x then dedupeAux seen rest
    else x :: dedupeAux (x :: seen) rest

/-- De-duplicate a name list, preserving encounter order. -/
def dedupe (l : List String) : List String := dedupeAux [] l

/-- Modelled from the spec: one declaration per component schema, under its
sanitized name, skipping names already emitted (a referenced schema may have
been hoisted earlier). -/
def renderSchemas (cfg : GenOptions) (schemas : List (String × Schema))
    (fuel : Nat) : List (String × Schema) → GenSt → GenSt
  | [], st => st
  | (k, s) :: rest, st =>
    let nm := safeName k
    let st1 :=
      if st.emitted.contains nm then st
      else (schemaToTypeScript cfg schemas fuel nm s true [] st).2
    renderSchemas cfg schemas fuel rest st1

/-- Modelled from the spec: for every message, a payload-type declaration, an
optional headers-type declaration, and a message-shape declaration combining
them. -/
def renderMessages (cfg : GenOptions) (schemas : List (String × Schema))
    (fuel : Nat) : List ParsedMessage → GenSt → GenSt
  | [], st => st
  | m :: rest, st =>
    let base := safeName m.name
    let pName := base ++ "Payload"
    let st1 := (schemaToTypeScript cfg schemas fuel pName m.payload true [] st).2
    let hRes :=
      match m.headers with
      | some h =>
        let hName := base ++ "Headers"
        (["  headers?: " ++ hName ++ ";"],
          (schemaToTypeScript cfg schemas fuel hName h true [] st1).2)
      | none => ([], st1)
    let msgName := base ++ "Message"
    let text := withDoc m.description
      (exportKw cfg ++ "interface " ++ msgName ++ " " ++ obrace ++ "\n"
        ++ joinSep "\n" (("  payload: " ++ pName ++ ";") :: hRes.1) ++ "\n" ++ cbrace)
    renderMessages cfg schemas fuel rest (emitDecl hRes.2 msgName text)

/-- Modelled from the spec: a union-type declaration per non-empty operation
direction, named `PascalCase(channelName) ++ Direction ++ "Messages"`, whose
members are the message-shape names of that direction's operations in
encounter order, de-duplicated; an empty direction emits nothing. -/
def channelUnion (cfg : GenOptions) (chName : String) (direction : String)
    (opsList : List ParsedOperation') (st : GenSt) : GenSt :=
  let names := dedupe ((opsList.flatMap (fun op => op.messages)).map
    (fun m => safeName m.name ++ "Message"))
  if names.isEmpty then st
  else
    let uName := safeName chName ++ direction ++ "Messages"
    emitDecl st uName (aliasDecl cfg uName (joinSep " | " names))

/-- Modelled from the spec: per-channel union-type declarations, send then
receive. -/
def renderChannels (cfg : GenOptions) : List ParsedChannel → GenSt → GenSt
  | [], st => st
  | ch :: rest, st =>
    let st1 := channelUnion cfg ch.name "Send" ch.sendOps st
    let st2 := channelUnion cfg ch.name "Receive" ch.receiveOps st1
    renderChannels cfg rest st2

/-- The header comment naming the source spec's title, version and
description (shape fixed by the generator tests). -/
def headerText (doc : ParsedAsyncAPI) : String :=
  let base := "/**\n * Generated from AsyncAPI spec: " ++ doc.title ++ " v"
    ++ doc.version ++ "\n * Generated by maxzilla-async-gen\n */"
  match doc.description with
  | some d => base ++ "\n\n/**\n * " ++ escapeJsDocComment d ++ "\n */"
  | none => base

/-- A recursion-depth budget ample for the document: the guard discipline
bounds real recursion depth well below it. -/
def docFuel (doc : ParsedAsyncAPI) : Nat :=
  8 * (doc.schemas.foldl (fun a kv => a + Schema.size kv.2) 0
    + doc.messages.foldl
        (fun a m => a + Schema.size m.payload +
          (match m.headers with | some h => Schema.size h | none => 0)) 0)
    + 8 * doc.schemas.length + 64

/-- Modelled from the spec: one `generate` invocation — header, component
schema declarations, message declarations, channel union declarations, all
from empty compiler state, joined by blank lines. -/
def generateFull (cfg : GenOptions) (doc : ParsedAsyncAPI) : String × GenSt :=
  let fuel := docFuel doc
  let st1 := renderSchemas cfg doc.schemas fuel doc.schemas GenSt.empty
  let st2 := renderMessages cfg doc.schemas fuel doc.messages st1
  let st3 := renderChannels cfg doc.channels st2
  (joinSep "\n\n" (headerText doc :: st3.decls), st3)

/-- The rendered artifact of one generation. -/
def generate (cfg : GenOptions) (doc : ParsedAsyncAPI) : String :=
  (generateFull cfg doc).1

/-- The reference-resolution warnings of one generation. -/
def generateWarnings (cfg : GenOptions) (doc : ParsedAsyncAPI) : List String :=
  (generateFull cfg doc).2.warnings

/-- The `TypeScriptGenerator` class value: its options plus the
`generatedTypes` instance field that outlives one call. -/
structure TypeScriptGenerator where
  options : GenOptions
  generatedTypes : List String

/-- Modelled from the spec: `TypeScriptGenerator.generate` — internal
compiler state is private to one invocation and not reused across
invocations; each call starts from empty state, whatever the instance
carried before. -/
def TypeScriptGenerator.generate (g : TypeScriptGenerator)
    (doc : ParsedAsyncAPI) : String × TypeScriptGenerator :=
  let res := generateFull g.options doc
  (res.1, ⟨g.options, res.2.emitted⟩)

/-!  Concrete documents exercised by the claim theorems. -/

/-- A `type: string` schema node. -/
def strSchema : Schema :=
  .mk (some "string") .nil .none [] [] none none .nil .nil .nil none none .none

/-- An object schema node with the given properties and required names. -/
def objSchema (props : List (String × Schema)) (req : List String) : Schema :=
  .mk (some "object") (propsOf props) .none req [] none none .nil .nil .nil none none .none

/-- A document whose only component schema lives under the kebab-case key
`user-profile`, referenced by the payload of message `Event`. -/
def kebabRefDoc : ParsedAsyncAPI :=
  ⟨"Test", "1.0.0", none, [],
    [⟨"Event", none, Schema.onlyRef "#/components/schemas/user-profile", none⟩],
    [("user-profile", objSchema [("firstName", strSchema)] [])]⟩

/-- A document whose message `OrderCreated` has a payload that is purely a
reference to component schema `Order`. -/
def payloadRefDoc : ParsedAsyncAPI :=
  ⟨"Test", "1.0.0", none, [],
    [⟨"OrderCreated", none, Schema.onlyRef "#/components/schemas/Order", none⟩],
    [("Order", objSchema [("id", strSchema)] ["id"])]⟩

/-- A document where schema `UserProfile` has a property named `address`
referencing the different schema `Address` (property-name/schema-name
coincidence). -/
def collisionDoc : ParsedAsyncAPI :=
  ⟨"Test", "1.0.0", none, [], [],
    [("UserProfile", objSchema [("address", Schema.onlyRef "#/components/schemas/Address")] []),
     ("Address", objSchema [("street", strSchema)] ["street"])]⟩

/-- A document whose schema `Node` references itself through its `next`
property (a true cycle). -/
def circularDoc : ParsedAsyncAPI :=
  ⟨"Test", "1.0.0", none, [], [],
    [("Node", objSchema
      [("value", strSchema), ("next", Schema.onlyRef "#/components/schemas/Node")] [])]⟩

/-- A document with one dangling reference (schema `Missing` does not exist)
next to an unrelated schema `Other`. -/
def danglingRefDoc : ParsedAsyncAPI :=
  ⟨"Test", "1.0.0", none, [], [],
    [("Parent", objSchema [("bad", Schema.onlyRef "#/components/schemas/Missing")] []),
     ("Other", objSchema [("id", strSchema)] ["id"])]⟩

/-- C1: `$ref` pointers are resolved by looking up the original key string of
the document's schema mapping — case- and punctuation-preserving, never a
sanitized or PascalCase re-derivation — so the schema stored under the
non-Pascal key `user-profile` is found and rendered (as `UserProfile`, with
the payload aliased to it), not downgraded to the fallback type, and no
resolution warning is produced. -/
theorem refResolution_uses_original_key :
    containsSub (generate cliOptions kebabRefDoc) "export interface UserProfile" = true
    ∧ containsSub (generate cliOptions kebabRefDoc) "export type EventPayload = UserProfile;" = true
    ∧ generateWarnings cliOptions kebabRefDoc = []
    ∧ containsSub (generate cliOptions kebabRefDoc) "unknown" = false := by
  refine ⟨?_, ?_, ?_, ?_⟩ <;> decide

/-- C3: a message payload that is purely a `$ref` in a top-level declaration
context is emitted as an explicit alias declaration
`export type OrderCreatedPayload = Order;`, and the resolved name `Order`
never appears alone on a line of the output. -/
theorem topLevel_ref_emits_alias :
    containsSub (generate cliOptions payloadRefDoc) "export type OrderCreatedPayload = Order;" = true
    ∧ (splitLines (generate cliOptions payloadRefDoc)).contains "Order" = false
    ∧ (splitLines (generate cliOptions payloadRefDoc)).contains "Order;" = false := by
  refine ⟨?_, ?_, ?_⟩ <;> decide

/-- C4: a property whose name coincides with the name of a different schema
it references does not trip the recursion guard: the guard gains a name only
when that name's own structural body is entered, not when a reference to it
is resolved, so `Address` is still fully declared exactly once, the field
refers to it, and nothing is downgraded to the fallback type. -/
theorem property_name_collision_no_false_cycle :
    countSub (generate cliOptions collisionDoc) "export interface Address" = 1
    ∧ containsSub (generate cliOptions collisionDoc) "address?: Address;" = true
    ∧ generateWarnings cliOptions collisionDoc = []
    ∧ containsSub (generate cliOptions collisionDoc) "unknown" = false := by
  refine ⟨?_, ?_, ?_, ?_⟩ <;> decide

/-- C5: a self-referential schema terminates generation, and the back-edge
occurrence — the point where the resolved target's name is found already in
the recursion guard — is rendered with the configured fallback type instead
of re-entering the schema's body.  First conjunct: for every configuration,
schema mapping, pointer, guard and state, a resolvable reference whose
not-yet-emitted target name is already in the guard resolves to the fallback
with the state untouched (no emission, no body re-entry).  Second conjunct:
the same for a name reaching the renderer's own entry while in the guard.
On the concrete self-referencing document, the schema's own declaration is
emitted exactly once, the back-edge field carries the fallback type, and the
recursion budget of the embedding is never exhausted. -/
theorem circular_reference_terminates :
    (∀ (cfg : GenOptions) (schemas : List (String × Schema)) (fuel : Nat)
        (p : String) (guard : List String) (st : GenSt) (target : Schema),
        lookupStr schemas (extractRefName p) = some target →
        st.emitted.contains (safeName (extractRefName p)) = false →
        guard.contains (safeName (extractRefName p)) = true →
        resolveRef cfg schemas (fuel + 1) p guard st = (fallbackType cfg, st))
    ∧ (∀ (cfg : GenOptions) (schemas : List (String × Schema)) (fuel : Nat)
        (name : String) (node : Schema) (isTop : Bool) (guard : List String)
        (st : GenSt), guard.contains name = true →
        schemaToTypeScript cfg schemas (fuel + 1) name node isTop guard st
          = (fallbackType cfg, st))
    ∧ countSub (generate cliOptions circularDoc) "export interface Node" = 1
    ∧ containsSub (generate cliOptions circularDoc) "next?: unknown;" = true
    ∧ (generateFull cliOptions circularDoc).2.exhausted = false := by
  refine ⟨?_, ?_, by decide, by decide, by decide⟩
  · intro cfg schemas fuel p guard st target hl he hg
    have hgm : safeName (extractRefName p) ∈ guard := by simpa using hg
    have hem : safeName (extractRefName p) ∉ st.emitted := by simpa using he
    simp [resolveRef, hl, hgm, hem]
  · intro cfg schemas fuel name node isTop guard st h
    have hm : name ∈ guard := by simpa using h
    simp [schemaToTypeScript, hm]

/-- Witness for C5: a concrete back edge — resolving a reference to `Node`
while `Node` is in progress in the guard yields the fallback type with the
state untouched. -/
theorem circular_reference_terminates_witness :
    resolveRef cliOptions [("Node", Schema.empty)] 1 "#/components/schemas/Node"
      ["Node"] GenSt.empty = (fallbackType cliOptions, GenSt.empty) :=
  circular_reference_terminates.1 cliOptions [("Node", Schema.empty)] 0
    "#/components/schemas/Node" ["Node"] GenSt.empty Schema.empty rfl rfl rfl

/-- C6: a `$ref` whose target is absent from the schema mapping is non-fatal:
the compiler emits the configured fallback type at that position, records one
warning naming the pointer, and generation continues to completion — the
declaration containing the dangling reference and every other declaration are
still emitted. -/
theorem dangling_ref_nonfatal :
    containsSub (generate cliOptions danglingRefDoc) "export interface Parent" = true
    ∧ containsSub (generate cliOptions danglingRefDoc) "export interface Other" = true
    ∧ containsSub (generate cliOptions danglingRefDoc) "bad?: unknown;" = true
    ∧ generateWarnings cliOptions danglingRefDoc
        = ["Could not resolve $ref: #/components/schemas/Missing"]
    ∧ (generateFull cliOptions danglingRefDoc).2.exhausted = false := by
  refine ⟨?_, ?_, ?_, ?_, ?_⟩ <;> decide

/-- C8: `generate` is a pure function of the Document plus configuration.
Internal state (emitted names, recursion guard, output buffer) restarts empty
on each call, so generating twice sequentially on the same instance yields
identical output, and the output does not depend on whatever `generatedTypes`
the instance carried. -/
theorem generate_pure_of_document (g : TypeScriptGenerator) (doc : ParsedAsyncAPI) :
    ((g.generate doc).2.generate doc).1 = (g.generate doc).1
    ∧ ∀ carried : List String,
        (TypeScriptGenerator.generate ⟨g.options, carried⟩ doc).1 = generate g.options doc := by
  exact ⟨rfl, fun _ => rfl⟩

end AsyncGen
